import Mathlib

/-!
Verification of the Botan TLS record layer and Finished-message spec.

Bytes are modelled as `Nat` values (< 256 where relevant); byte sequences
as `List Nat`.  The Finished message logic is translated from
`src/lib/tls/msg_finished.cpp`; the TLS 1.3 record layer behaviour is
modelled from the specification, since only the declaration header
`src/lib/tls/tls13/tls_record_layer_13.h` is part of the sources.
-/

namespace Botan.TLS

/-- Connection side, as used by `msg_finished.cpp` (`CLIENT` / `SERVER`). -/
inductive Connection_Side
| CLIENT
| SERVER
deriving DecidableEq

/-- The bytes of the string "client finished" (`TLS_CLIENT_LABEL` in
`msg_finished.cpp`). -/
def TLS_CLIENT_LABEL : List Nat :=
  [0x63, 0x6C, 0x69, 0x65, 0x6E, 0x74, 0x20, 0x66, 0x69, 0x6E, 0x69, 0x73, 0x68, 0x65, 0x64]

/-- The bytes of the string "server finished" (`TLS_SERVER_LABEL` in
`msg_finished.cpp`). -/
def TLS_SERVER_LABEL : List Nat :=
  [0x73, 0x65, 0x72, 0x76, 0x65, 0x72, 0x20, 0x66, 0x69, 0x6E, 0x69, 0x73, 0x68, 0x65, 0x64]

/-- Abstraction of the `Handshake_State` interface that
`finished_compute_verify` consumes: the protocol specific PRF
(`prf->derive_key(len, secret, input, label)`), the session's master
secret, and the final transcript hash value
(`state.hash().final(state.ciphersuite().prf_algo())`).  These are
external collaborators of the code under verification. -/
structure Handshake_State where
  prf_derive_key : Nat → List Nat → List Nat → List Nat → List Nat
  master_secret : List Nat
  transcript_hash_final : List Nat

/-- `finished_compute_verify` from `msg_finished.cpp`: selects the label
by connection side and asks the PRF for a 12-byte key derived from the
master secret, the final transcript hash and the label. -/
def finished_compute_verify (state : Handshake_State) (side : Connection_Side) : List Nat :=
  let label : List Nat :=
    match side with
    | .CLIENT => TLS_CLIENT_LABEL
    | .SERVER => TLS_SERVER_LABEL
  let input : List Nat := state.transcript_hash_final
  state.prf_derive_key 12 state.master_secret input label

/-- Modelled from the spec: Botan's `constant_time_compare` (its
implementation is not under `src/`).  The spec requires a constant-time
equality check that accumulates a difference over every byte position
with no data-dependent early exit; this is the standard
accumulate-or-of-xor formulation. -/
def constant_time_compare (x y : List Nat) (len : Nat) : Bool :=
  ((List.range len).foldl (fun acc i => acc ||| (x.getD i 0 ^^^ y.getD i 0)) 0) == 0

/-- Instrumented form of `constant_time_compare`: alongside the
accumulated difference it counts how many byte positions the comparison
inspects. -/
def constant_time_compare_trace (x y : List Nat) (len : Nat) : Nat × Nat :=
  (List.range len).foldl
    (fun acc i => (acc.1 ||| (x.getD i 0 ^^^ y.getD i 0), acc.2 + 1)) (0, 0)

/-- A (received) Finished message: its verification data buffer
(`m_verification_data` in `msg_finished.cpp`). -/
structure Finished where
  m_verification_data : List Nat

/-- `Finished::verify` from `msg_finished.cpp`.  `fuzzer_mode` models the
build-time `BOTAN_UNSAFE_FUZZER_MODE` preprocessor switch: when defined,
the function returns `true` unconditionally; otherwise the received data
must have the same size as the recomputed value and compare equal under
`constant_time_compare`. -/
def Finished.verify (fuzzer_mode : Bool) (fin : Finished)
    (state : Handshake_State) (side : Connection_Side) : Bool :=
  let computed_verify := finished_compute_verify state side
  if fuzzer_mode then
    true
  else
    (fin.m_verification_data.length == computed_verify.length) &&
      constant_time_compare fin.m_verification_data computed_verify computed_verify.length

/-! ## Record layer (modelled from the spec)

The implementation file `tls_record_layer_13.cpp` is not under `src/`;
only the declarations in `tls_record_layer_13.h` are.  The definitions
below therefore model the record layer from the specification's
description of `copy_data`, `next_record` and `prepare_records`. -/

/-- Record content types with their wire byte values (`tls_magic.h`). -/
inductive Record_Type
| CHANGE_CIPHER_SPEC
| ALERT
| HANDSHAKE
| APPLICATION_DATA
| HEARTBEAT
deriving DecidableEq

/-- Wire byte value of a record content type. -/
def Record_Type.toByte : Record_Type → Nat
| .CHANGE_CIPHER_SPEC => 20
| .ALERT => 21
| .HANDSHAKE => 22
| .APPLICATION_DATA => 23
| .HEARTBEAT => 24

/-- Recover a record content type from its wire byte value. -/
def Record_Type.fromByte (b : Nat) : Option Record_Type :=
  if b = 20 then some .CHANGE_CIPHER_SPEC
  else if b = 21 then some .ALERT
  else if b = 22 then some .HANDSHAKE
  else if b = 23 then some .APPLICATION_DATA
  else if b = 24 then some .HEARTBEAT
  else none

/-- A decoded record (`Record` in `tls_record_layer_13.h`): content type,
plaintext fragment, and an optional sequence number that is present only
for protected records. -/
structure Record where
  type : Record_Type
  fragment : List Nat
  seq_no : Option Nat
deriving DecidableEq

/-- Modelled from the spec: the `Cipher_State` collaborator (external to
the record layer).  It owns one sequence counter per direction and an
authenticated encrypt/decrypt capability keyed by a sequence number; a
decryption returning `none` models an authentication failure. -/
structure Cipher_State where
  decrypt_seq : Nat
  encrypt_seq : Nat
  decrypt_fn : Nat → List Nat → Option (List Nat)
  encrypt_fn : Nat → List Nat → List Nat

/-- Size of the legacy record header: type, two version bytes, two
length bytes. -/
def TLS_HEADER_SIZE : Nat := 5

/-- Maximum plaintext fragment size per record (2^14). -/
def MAX_PLAINTEXT_SIZE : Nat := 16384

/-- Maximum ciphertext size per record (2^14 + 256). -/
def MAX_CIPHERTEXT_SIZE : Nat := MAX_PLAINTEXT_SIZE + 256

/-- Major byte of the frozen legacy protocol version (0x03). -/
def LEGACY_VERSION_MAJOR : Nat := 3

/-- Minor byte of the frozen legacy protocol version (0x03). -/
def LEGACY_VERSION_MINOR : Nat := 3

/-- The record layer's private state (`tls_record_layer_13.h`): the
append-only read buffer, the connection side, and the flag tracking
whether the next decoded record is the very first one. -/
structure Record_Layer where
  m_read_buffer : List Nat
  m_side : Connection_Side
  m_initial_record : Bool

/-- `Record_Layer::copy_data`: appends received bytes to the read
buffer; no parsing happens here. -/
def Record_Layer.copy_data (rl : Record_Layer) (data_from_peer : List Nat) : Record_Layer :=
  { rl with m_read_buffer := rl.m_read_buffer ++ data_from_peer }

/-- The kinds of fatal decode errors the record layer can raise. -/
inductive DecodeErr
| ossification
| recordOverflow
| badRecordMac
| missingContentType
| unknownContentType
| oversizedPlaintext
deriving DecidableEq

/-- Result of `Record_Layer::next_record`: either the number of missing
bytes, a fatal decode error, or one decoded record together with the
updated record layer state and the updated cipher state. -/
inductive NextResult
| bytesNeeded (n : Nat)
| decodeError (e : DecodeErr)
| ok (rec : Record) (rl : Record_Layer) (cs : Option Cipher_State)

/-- Modelled from the spec: strip the trailing zero padding of a
decrypted inner plaintext by scanning from the end for the first
non-zero byte, which is the inner content type byte; everything before
it is the content.  An all-zero buffer yields `none`. -/
def strip_padding (inner : List Nat) : Option (Nat × List Nat) :=
  match inner.reverse.dropWhile (fun b => b == 0) with
  | [] => none
  | t :: rest => some (t, rest.reverse)

/-- Result of the record decryptor. -/
inductive DecryptResult
| err (e : DecodeErr)
| ok (t : Record_Type) (pt : List Nat)

/-- Modelled from the spec: the Record Decryptor.  Invokes the cipher
state's authenticated decryption with the given sequence number, strips
the trailing zero padding, recovers the inner content type, and enforces
the maximum plaintext size. -/
def decrypt_record (raw_fragment : List Nat) (seq : Nat) (cs : Cipher_State) : DecryptResult :=
  match cs.decrypt_fn seq raw_fragment with
  | none => .err .badRecordMac
  | some inner =>
    match strip_padding inner with
    | none => .err .missingContentType
    | some (tb, content) =>
      match Record_Type.fromByte tb with
      | none => .err .unknownContentType
      | some t =>
        if MAX_PLAINTEXT_SIZE < content.length then .err .oversizedPlaintext
        else .ok t content

/-- Turn a complete raw fragment into a record's content: without a
cipher state the header byte is the content type and the fragment is
already plaintext; with a cipher state the fragment is decrypted under
the current decrypt counter, which becomes the record's sequence number
and then advances. -/
def parse_fragment (ct_byte : Nat) (raw_fragment : List Nat) :
    Option Cipher_State → Except DecodeErr (Record × Option Cipher_State)
| none =>
  match Record_Type.fromByte ct_byte with
  | none => .error .unknownContentType
  | some t => .ok (⟨t, raw_fragment, none⟩, none)
| some cs =>
  match decrypt_record raw_fragment cs.decrypt_seq cs with
  | .err e => .error e
  | .ok t pt =>
    .ok (⟨t, pt, some cs.decrypt_seq⟩, some { cs with decrypt_seq := cs.decrypt_seq + 1 })

/-- Modelled from the spec: `Record_Layer::next_record`.  Reads the
five-byte legacy header; on the very first record checks the frozen
legacy version; rejects a declared length above the maximum (ciphertext
maximum when a cipher state is supplied, plaintext maximum otherwise)
before asking for the fragment bytes; then either reports the missing
byte count or decodes one record, consuming its bytes and clearing the
initial-record flag. -/
def Record_Layer.next_record (rl : Record_Layer) (cipher_state : Option Cipher_State) :
    NextResult :=
  match rl.m_read_buffer with
  | ct_byte :: v_major :: v_minor :: len_hi :: len_lo :: rest =>
    if rl.m_initial_record &&
        !(v_major == LEGACY_VERSION_MAJOR && v_minor == LEGACY_VERSION_MINOR) then
      .decodeError .ossification
    else
      let record_len := 256 * len_hi + len_lo
      let max_len :=
        match cipher_state with
        | some _ => MAX_CIPHERTEXT_SIZE
        | none => MAX_PLAINTEXT_SIZE
      if max_len < record_len then
        .decodeError .recordOverflow
      else if rest.length < record_len then
        .bytesNeeded (record_len - rest.length)
      else
        match parse_fragment ct_byte (rest.take record_len) cipher_state with
        | .error e => .decodeError e
        | .ok (rec, cs2) =>
          .ok rec
            { rl with m_read_buffer := rest.drop record_len, m_initial_record := false } cs2
  | buf => .bytesNeeded (TLS_HEADER_SIZE - buf.length)

/-- Modelled from the spec: split outgoing data into fragments of at
most `MAX_PLAINTEXT_SIZE` bytes; data that fits in one fragment (empty
data included) yields exactly one fragment. -/
def split_fragments (data : List Nat) : List (List Nat) :=
  if h : data.length ≤ MAX_PLAINTEXT_SIZE then [data]
  else
    data.take MAX_PLAINTEXT_SIZE :: split_fragments (data.drop MAX_PLAINTEXT_SIZE)
termination_by data.length
decreasing_by
  simp only [List.length_drop, MAX_PLAINTEXT_SIZE] at *
  omega

/-- Serialize the five-byte legacy record header (big-endian length). -/
def serialize_header (ct_byte : Nat) (len : Nat) : List Nat :=
  [ct_byte, LEGACY_VERSION_MAJOR, LEGACY_VERSION_MINOR, len / 256, len % 256]

/-- Modelled from the spec: encode one fragment.  Without a cipher state
the header carries the true content type and the raw fragment follows.
With a cipher state, the inner plaintext `fragment || type-byte`
(zero-length padding policy) is encrypted under the next send sequence
number, the header carries the ossified application-data type, and the
cipher state's send counter advances. -/
def encode_fragment (type : Record_Type) (fragment : List Nat) :
    Option Cipher_State → List Nat × Option Cipher_State
| none => (serialize_header type.toByte fragment.length ++ fragment, none)
| some cs =>
  let inner := fragment ++ [type.toByte]
  let ctext := cs.encrypt_fn cs.encrypt_seq inner
  (serialize_header Record_Type.APPLICATION_DATA.toByte ctext.length ++ ctext,
    some { cs with encrypt_seq := cs.encrypt_seq + 1 })

/-- Modelled from the spec: encode a list of fragments as successive
records, threading the cipher state through. -/
def encode_fragments (type : Record_Type) :
    List (List Nat) → Option Cipher_State → List Nat × Option Cipher_State
| [], cs => ([], cs)
| f :: fs, cs =>
  let step := encode_fragment type f cs
  let rest := encode_fragments type fs step.2
  (step.1 ++ rest.1, rest.2)

/-- Modelled from the spec: `Record_Layer::prepare_records`.  Splits the
data into bounded fragments and encodes each as an independent record in
order, returning the serialized wire bytes and the updated cipher
state. -/
def prepare_records (type : Record_Type) (data : List Nat)
    (cipher_state : Option Cipher_State) : List Nat × Option Cipher_State :=
  encode_fragments type (split_fragments data) cipher_state

/-- Drive `next_record` until the read buffer is drained, collecting the
decoded records; `fuel` bounds the number of records.  Returns `none` if
a decode fails, more bytes are needed, or the fuel runs out with bytes
left over. -/
def drain : Option Cipher_State → Nat → Record_Layer → Option (List Record)
| _, 0, rl => if rl.m_read_buffer = [] then some [] else none
| cs, fuel + 1, rl =>
  if rl.m_read_buffer = [] then some []
  else
    match rl.next_record cs with
    | .ok r rl2 cs2 => (drain cs2 fuel rl2).map (fun l => r :: l)
    | _ => none

/-- The chunked reading loop of the incremental-parsing property: feed
one chunk with `copy_data`, attempt `next_record`; on `bytesNeeded` feed
the next chunk; any other outcome (a record or an error) is the result.
With no chunks left the last attempt's outcome stands. -/
def chunked_read (cs : Option Cipher_State) : Record_Layer → List (List Nat) → NextResult
| rl, [] => rl.next_record cs
| rl, c :: rest =>
  let rl2 := rl.copy_data c
  match rl2.next_record cs with
  | .bytesNeeded _ => chunked_read cs rl2 rest
  | r => r

/-- A concrete handshake state used by the witnesses: the PRF returns
the requested number of `1` bytes. -/
def hs_state0 : Handshake_State :=
  ⟨fun n _ _ _ => List.replicate n 1, [], []⟩

/-- An identity stub cipher with given decrypt counter, used by the
record-layer witnesses: encryption and decryption are the identity. -/
def id_cipher (n : Nat) : Cipher_State :=
  ⟨n, n, fun _ x => some x, fun _ x => x⟩

/-! ## Supporting lemmas -/

lemma nat_or_eq_zero (a b : Nat) : a ||| b = 0 ↔ a = 0 ∧ b = 0 := by
  constructor
  · intro h
    have ha : ∀ i, a.testBit i = false := by
      intro i
      have hbit := congrArg (fun n => Nat.testBit n i) h
      simp [Nat.testBit_or] at hbit
      exact hbit.1
    have hb : ∀ i, b.testBit i = false := by
      intro i
      have hbit := congrArg (fun n => Nat.testBit n i) h
      simp [Nat.testBit_or] at hbit
      exact hbit.2
    exact ⟨Nat.eq_of_testBit_eq (fun i => by simp [ha i]),
           Nat.eq_of_testBit_eq (fun i => by simp [hb i])⟩
  · rintro ⟨rfl, rfl⟩
    rfl

lemma foldl_or_eq_zero (f : Nat → Nat) (l : List Nat) (a : Nat) :
    l.foldl (fun acc i => acc ||| f i) a = 0 ↔ a = 0 ∧ ∀ i ∈ l, f i = 0 := by
  induction l generalizing a with
  | nil => simp
  | cons x xs ih =>
    simp only [List.foldl_cons, ih, nat_or_eq_zero, List.forall_mem_cons]
    tauto

lemma constant_time_compare_true_iff (x y : List Nat) (n : Nat) :
    constant_time_compare x y n = true ↔ ∀ i < n, x.getD i 0 = y.getD i 0 := by
  unfold constant_time_compare
  rw [beq_iff_eq, foldl_or_eq_zero]
  simp [List.mem_range, Nat.xor_eq_zero]

lemma constant_time_compare_iff_eq (x y : List Nat) (h : x.length = y.length) :
    constant_time_compare x y y.length = true ↔ x = y := by
  rw [constant_time_compare_true_iff]
  constructor
  · intro hall
    refine List.ext_getElem h (fun i h1 h2 => ?_)
    have hgi := hall i h2
    rwa [List.getD_eq_getElem x 0 h1, List.getD_eq_getElem y 0 h2] at hgi
  · rintro rfl
    exact fun i _ => rfl

lemma foldl_pair_snd (g : Nat → Nat → Nat) (l : List Nat) (a c : Nat) :
    (l.foldl (fun acc i => (g acc.1 i, acc.2 + 1)) (a, c)).2 = c + l.length := by
  induction l generalizing a c with
  | nil => simp
  | cons x xs ih => simp [List.foldl_cons, ih]; omega

lemma foldl_pair_fst (g : Nat → Nat → Nat) (l : List Nat) (a c : Nat) :
    (l.foldl (fun acc i => (g acc.1 i, acc.2 + 1)) (a, c)).1 =
      l.foldl (fun acc i => g acc i) a := by
  induction l generalizing a c with
  | nil => simp
  | cons x xs ih => simp [List.foldl_cons, ih]

lemma verify_false_eq (fin : Finished) (state : Handshake_State) (side : Connection_Side) :
    Finished.verify false fin state side =
      ((fin.m_verification_data.length == (finished_compute_verify state side).length) &&
        constant_time_compare fin.m_verification_data (finished_compute_verify state side)
          (finished_compute_verify state side).length) := rfl

lemma verify_false_true_iff (fin : Finished) (state : Handshake_State)
    (side : Connection_Side) :
    Finished.verify false fin state side = true ↔
      fin.m_verification_data = finished_compute_verify state side := by
  rw [verify_false_eq, Bool.and_eq_true, beq_iff_eq]
  constructor
  · rintro ⟨hlen, hcmp⟩
    exact (constant_time_compare_iff_eq _ _ hlen).mp hcmp
  · rintro heq
    refine ⟨by rw [heq], ?_⟩
    exact (constant_time_compare_iff_eq _ _ (by rw [heq])).mpr heq

/-! ## Claim theorems: Finished message -/

/-- C3: in a non-fuzzer build, `Finished::verify` returns true exactly
when the received verification data has the same length as the
recomputed value and is byte-for-byte equal to it; in particular any
received value of a different length is rejected. -/
theorem Finished_verify_true_iff_eq (fin : Finished) (state : Handshake_State)
    (side : Connection_Side) :
    (Finished.verify false fin state side = true ↔
      (fin.m_verification_data.length = (finished_compute_verify state side).length ∧
        fin.m_verification_data = finished_compute_verify state side)) ∧
    (fin.m_verification_data.length ≠ (finished_compute_verify state side).length →
      Finished.verify false fin state side = false) := by
  constructor
  · rw [verify_false_true_iff]
    constructor
    · intro heq
      exact ⟨by rw [heq], heq⟩
    · exact And.right
  · intro hne
    cases hv : Finished.verify false fin state side with
    | false => rfl
    | true =>
      exact absurd (by rw [(verify_false_true_iff fin state side).mp hv]) hne

/-- Witness for C3 at a concrete input. -/
theorem Finished_verify_true_iff_eq_witness :
    Finished.verify false ⟨List.replicate 12 1⟩ hs_state0 Connection_Side.CLIENT = true ∧
    Finished.verify false ⟨[1, 2]⟩ hs_state0 Connection_Side.CLIENT = false := by
  constructor
  · exact (Finished_verify_true_iff_eq ⟨List.replicate 12 1⟩ hs_state0
      Connection_Side.CLIENT).1.mpr (by constructor <;> rfl)
  · exact (Finished_verify_true_iff_eq ⟨[1, 2]⟩ hs_state0
      Connection_Side.CLIENT).2 (by decide)

/-- C4: the comparison in `Finished::verify` inspects every byte
position with no data-dependent early exit (the instrumented comparison
always counts exactly `n` inspections and computes the same answer); a
received value differing from the recomputed one only in its last byte
and a received value of different length both yield "not verified", with
the same observable result. -/
theorem Finished_verify_constant_time (state : Handshake_State) (side : Connection_Side) :
    (∀ x y n, (constant_time_compare_trace x y n).2 = n) ∧
    (∀ x y n, constant_time_compare x y n = ((constant_time_compare_trace x y n).1 == 0)) ∧
    (∀ (u : List Nat) (b b2 : Nat), finished_compute_verify state side = u ++ [b] → b2 ≠ b →
      Finished.verify false ⟨u ++ [b2]⟩ state side = false) ∧
    (∀ fin : Finished,
      fin.m_verification_data.length ≠ (finished_compute_verify state side).length →
      Finished.verify false fin state side = false) ∧
    (∀ (u : List Nat) (b b2 : Nat) (fin : Finished),
      finished_compute_verify state side = u ++ [b] → b2 ≠ b →
      fin.m_verification_data.length ≠ (finished_compute_verify state side).length →
      Finished.verify false ⟨u ++ [b2]⟩ state side = Finished.verify false fin state side) := by
  have hlastbyte : ∀ (u : List Nat) (b b2 : Nat),
      finished_compute_verify state side = u ++ [b] → b2 ≠ b →
      Finished.verify false ⟨u ++ [b2]⟩ state side = false := by
    intro u b b2 hcv hne
    cases hv : Finished.verify false ⟨u ++ [b2]⟩ state side with
    | false => rfl
    | true =>
      have heq := (verify_false_true_iff ⟨u ++ [b2]⟩ state side).mp hv
      rw [hcv] at heq
      have hb := List.append_cancel_left heq
      simp at hb
      exact absurd hb hne
  have hlen : ∀ fin : Finished,
      fin.m_verification_data.length ≠ (finished_compute_verify state side).length →
      Finished.verify false fin state side = false := by
    intro fin hne
    cases hv : Finished.verify false fin state side with
    | false => rfl
    | true =>
      exact absurd (by rw [(verify_false_true_iff fin state side).mp hv]) hne
  refine ⟨?_, ?_, hlastbyte, hlen, ?_⟩
  · intro x y n
    unfold constant_time_compare_trace
    simpa using foldl_pair_snd (fun a i => a ||| (x.getD i 0 ^^^ y.getD i 0)) (List.range n) 0 0
  · intro x y n
    unfold constant_time_compare constant_time_compare_trace
    have hfst :=
      foldl_pair_fst (fun a i => a ||| (x.getD i 0 ^^^ y.getD i 0)) (List.range n) 0 0
    simp only at hfst
    rw [hfst]
  · intro u b b2 fin hcv hne hlenne
    rw [hlastbyte u b b2 hcv hne, hlen fin hlenne]

/-- Witness for C4 at a concrete input: the recomputed value is twelve
`1` bytes; a copy whose last byte is `2` and a one-byte value both fail
verification identically, and the comparison inspects all 12 bytes. -/
theorem Finished_verify_constant_time_witness :
    (constant_time_compare_trace (List.replicate 11 1 ++ [2]) (List.replicate 12 1) 12).2 = 12 ∧
    Finished.verify false ⟨List.replicate 11 1 ++ [2]⟩ hs_state0 Connection_Side.CLIENT = false ∧
    Finished.verify false ⟨[1]⟩ hs_state0 Connection_Side.CLIENT = false := by
  have hc := Finished_verify_constant_time hs_state0 Connection_Side.CLIENT
  refine ⟨hc.1 _ _ 12, ?_, ?_⟩
  · exact hc.2.2.1 (List.replicate 11 1) 1 2 (by rfl) (by decide)
  · exact hc.2.2.2.1 ⟨[1]⟩ (by decide)

/-- C8: with the `BOTAN_UNSAFE_FUZZER_MODE` switch defined,
`Finished::verify` returns true for every input; without it, the
length-and-constant-time comparison decides the result. -/
theorem Finished_verify_fuzzer_bypass (fin : Finished) (state : Handshake_State)
    (side : Connection_Side) :
    Finished.verify true fin state side = true ∧
    Finished.verify false fin state side =
      ((fin.m_verification_data.length == (finished_compute_verify state side).length) &&
        constant_time_compare fin.m_verification_data (finished_compute_verify state side)
          (finished_compute_verify state side).length) :=
  ⟨rfl, rfl⟩

/-- C9: the verification value is derived through the PRF with the label
"client finished" for the client side and "server finished" for the
server side, and the two labels are distinct. -/
theorem finished_compute_verify_labels (state : Handshake_State) :
    finished_compute_verify state Connection_Side.CLIENT =
      state.prf_derive_key 12 state.master_secret state.transcript_hash_final
        TLS_CLIENT_LABEL ∧
    finished_compute_verify state Connection_Side.SERVER =
      state.prf_derive_key 12 state.master_secret state.transcript_hash_final
        TLS_SERVER_LABEL ∧
    TLS_CLIENT_LABEL ≠ TLS_SERVER_LABEL :=
  ⟨rfl, rfl, by decide⟩

/-- Witness for C9 at a concrete handshake state. -/
theorem finished_compute_verify_labels_witness :
    finished_compute_verify hs_state0 Connection_Side.CLIENT =
      hs_state0.prf_derive_key 12 hs_state0.master_secret hs_state0.transcript_hash_final
        TLS_CLIENT_LABEL ∧
    finished_compute_verify hs_state0 Connection_Side.SERVER =
      hs_state0.prf_derive_key 12 hs_state0.master_secret hs_state0.transcript_hash_final
        TLS_SERVER_LABEL ∧
    TLS_CLIENT_LABEL ≠ TLS_SERVER_LABEL :=
  finished_compute_verify_labels hs_state0

/-- C10: the PRF is asked for exactly 12 bytes, so whenever the PRF
honours its output-length contract the verification value is exactly 12
bytes long, for every handshake state and side. -/
theorem finished_compute_verify_length (state : Handshake_State) (side : Connection_Side)
    (hprf : ∀ n sec salt lab, (state.prf_derive_key n sec salt lab).length = n) :
    (finished_compute_verify state side).length = 12 := by
  cases side <;> exact hprf _ _ _ _

/-- Witness for C10 at a concrete input. -/
theorem finished_compute_verify_length_witness :
    (finished_compute_verify hs_state0 Connection_Side.CLIENT).length = 12 :=
  finished_compute_verify_length hs_state0 Connection_Side.CLIENT
    (fun n _ _ _ => by simp [hs_state0])

/-! ## Claim theorems: record layer -/

/-- C5: a buffered header whose declared length exceeds the maximum
(ciphertext maximum with a cipher state, plaintext maximum without) is
rejected with a fatal record-overflow decode error as soon as the header
is available, even if the declared fragment bytes were never received —
in particular `next_record` does not answer `bytesNeeded`. -/
theorem next_record_oversize_rejected (s : Connection_Side) (b : Bool)
    (cs : Option Cipher_State) (ct v1 v2 l1 l2 : Nat) (rest : List Nat)
    (hv : b = false ∨ (v1 = LEGACY_VERSION_MAJOR ∧ v2 = LEGACY_VERSION_MINOR))
    (hlen : (match cs with
             | some _ => MAX_CIPHERTEXT_SIZE
             | none => MAX_PLAINTEXT_SIZE) < 256 * l1 + l2) :
    Record_Layer.next_record ⟨ct :: v1 :: v2 :: l1 :: l2 :: rest, s, b⟩ cs =
      .decodeError .recordOverflow := by
  have hcond : (b && !(v1 == LEGACY_VERSION_MAJOR && v2 == LEGACY_VERSION_MINOR)) = false := by
    rcases hv with h | ⟨h1, h2⟩
    · simp [h]
    · simp [h1, h2]
  unfold Record_Layer.next_record
  simp only [hcond, Bool.false_eq_true, if_false]
  split
  · rfl
  · omega

/-- Witness for C5: a plaintext header declaring 16385 bytes with an
empty fragment buffer is rejected as record overflow. -/
theorem next_record_oversize_rejected_witness :
    Record_Layer.next_record ⟨[22, 3, 3, 64, 1], Connection_Side.CLIENT, false⟩ none =
      .decodeError .recordOverflow :=
  next_record_oversize_rejected Connection_Side.CLIENT false none 22 3 3 64 1 []
    (Or.inl rfl) (by decide)

lemma parse_fragment_ok_some (ct : Nat) (frag : List Nat) (c : Cipher_State)
    (rec : Record) (cso : Option Cipher_State)
    (h : parse_fragment ct frag (some c) = .ok (rec, cso)) :
    rec.seq_no = some c.decrypt_seq ∧
      cso = some { c with decrypt_seq := c.decrypt_seq + 1 } := by
  simp only [parse_fragment] at h
  cases hdec : decrypt_record frag c.decrypt_seq c with
  | err e =>
    rw [hdec] at h
    have h2 : (Except.error e : Except DecodeErr (Record × Option Cipher_State)) =
        .ok (rec, cso) := h
    exact Except.noConfusion h2
  | ok t pt =>
    rw [hdec] at h
    have h2 : (Except.ok (⟨⟨t, pt, some c.decrypt_seq⟩,
        some { c with decrypt_seq := c.decrypt_seq + 1 }⟩ :
          Record × Option Cipher_State) : Except DecodeErr _) = .ok (rec, cso) := h
    simp only [Except.ok.injEq, Prod.mk.injEq] at h2
    obtain ⟨hrec, hcso⟩ := h2
    rw [← hrec, ← hcso]
    exact ⟨rfl, rfl⟩

lemma parse_fragment_ok_none (ct : Nat) (frag : List Nat)
    (rec : Record) (cso : Option Cipher_State)
    (h : parse_fragment ct frag none = .ok (rec, cso)) :
    rec.seq_no = none ∧ cso = none := by
  simp only [parse_fragment] at h
  cases hfb : Record_Type.fromByte ct with
  | none =>
    rw [hfb] at h
    have h2 : (Except.error DecodeErr.unknownContentType :
        Except DecodeErr (Record × Option Cipher_State)) = .ok (rec, cso) := h
    exact Except.noConfusion h2
  | some t =>
    rw [hfb] at h
    have h2 : (Except.ok (⟨⟨t, frag, none⟩, none⟩ : Record × Option Cipher_State) :
        Except DecodeErr _) = .ok (rec, cso) := h
    simp only [Except.ok.injEq, Prod.mk.injEq] at h2
    obtain ⟨hrec, hcso⟩ := h2
    rw [← hrec, ← hcso]
    exact ⟨rfl, rfl⟩

/-- Inversion of a successful `next_record`: the returned state has the
initial-record flag cleared, keeps the side, and the record and cipher
state come from a successful `parse_fragment` run. -/
lemma next_record_ok_inv (rl : Record_Layer) (cs : Option Cipher_State) (r : Record)
    (rl2 : Record_Layer) (cs2 : Option Cipher_State)
    (h : Record_Layer.next_record rl cs = .ok r rl2 cs2) :
    rl2.m_initial_record = false ∧ rl2.m_side = rl.m_side ∧
      ∃ ct frag, parse_fragment ct frag cs = .ok (r, cs2) := by
  unfold Record_Layer.next_record at h
  rcases hbuf : rl.m_read_buffer with _ | ⟨a1, _ | ⟨a2, _ | ⟨a3, _ | ⟨a4, _ | ⟨a5, rest⟩⟩⟩⟩⟩ <;>
    rw [hbuf] at h <;>
    simp only at h
  case nil => exact absurd h (by simp)
  case cons.nil => exact absurd h (by simp)
  case cons.cons.nil => exact absurd h (by simp)
  case cons.cons.cons.nil => exact absurd h (by simp)
  case cons.cons.cons.cons.nil => exact absurd h (by simp)
  case cons.cons.cons.cons.cons =>
    split at h
    · exact absurd h (by simp)
    · split at h
      · exact absurd h (by simp)
      · split at h
        · exact absurd h (by simp)
        · rcases hpf : parse_fragment a1 (List.take (256 * a4 + a5) rest) cs
            with e | ⟨rec2, cs3⟩ <;> rw [hpf] at h
          · exact absurd h (by simp)
          · have h2 : NextResult.ok rec2
                { rl with m_read_buffer := List.drop (256 * a4 + a5) rest,
                          m_initial_record := false } cs3 = .ok r rl2 cs2 := h
            injection h2 with hr hrl hcs
            refine ⟨by rw [← hrl], by rw [← hrl], a1, List.take (256 * a4 + a5) rest, ?_⟩
            rw [hpf, hr, hcs]

/-- C6: with the initial-record flag set, a header whose legacy version
differs from the frozen value is a fatal ossification decode error; with
the flag cleared (every second-or-later record) the version bytes are
ignored entirely — the result is the same as with the frozen value — and
every successful decode clears the flag. -/
theorem next_record_ossification_check :
    (∀ (s : Connection_Side) (cs : Option Cipher_State) (ct v1 v2 l1 l2 : Nat)
        (rest : List Nat),
      ¬(v1 = LEGACY_VERSION_MAJOR ∧ v2 = LEGACY_VERSION_MINOR) →
      Record_Layer.next_record ⟨ct :: v1 :: v2 :: l1 :: l2 :: rest, s, true⟩ cs =
        .decodeError .ossification) ∧
    (∀ (s : Connection_Side) (cs : Option Cipher_State) (ct v1 v2 l1 l2 : Nat)
        (rest : List Nat),
      Record_Layer.next_record ⟨ct :: v1 :: v2 :: l1 :: l2 :: rest, s, false⟩ cs =
        Record_Layer.next_record
          ⟨ct :: LEGACY_VERSION_MAJOR :: LEGACY_VERSION_MINOR :: l1 :: l2 :: rest, s, false⟩
          cs) ∧
    (∀ (rl : Record_Layer) (cs : Option Cipher_State) (r : Record) (rl2 : Record_Layer)
        (cs2 : Option Cipher_State),
      Record_Layer.next_record rl cs = .ok r rl2 cs2 → rl2.m_initial_record = false) := by
  refine ⟨?_, ?_, ?_⟩
  · intro s cs ct v1 v2 l1 l2 rest hne
    have hcond : (true && !(v1 == LEGACY_VERSION_MAJOR && v2 == LEGACY_VERSION_MINOR)) = true := by
      by_cases h1 : v1 = LEGACY_VERSION_MAJOR
      · by_cases h2 : v2 = LEGACY_VERSION_MINOR
        · exact absurd ⟨h1, h2⟩ hne
        · simp [h1, h2]
      · simp [h1]
    unfold Record_Layer.next_record
    simp only [hcond, if_true]
  · intro s cs ct v1 v2 l1 l2 rest
    unfold Record_Layer.next_record
    simp
  · intro rl cs r rl2 cs2 h
    exact (next_record_ok_inv rl cs r rl2 cs2 h).1

/-- Witness for C6 at concrete inputs: a wrong first-record version is
an ossification error, while the same bytes decode once the flag is
cleared, leaving the flag cleared. -/
theorem next_record_ossification_check_witness :
    Record_Layer.next_record ⟨[22, 4, 4, 0, 0], Connection_Side.CLIENT, true⟩ none =
      .decodeError .ossification ∧
    Record_Layer.next_record ⟨[22, 4, 4, 0, 0], Connection_Side.CLIENT, false⟩ none =
      Record_Layer.next_record ⟨[22, 3, 3, 0, 0], Connection_Side.CLIENT, false⟩ none ∧
    ({ m_read_buffer := [], m_side := Connection_Side.CLIENT, m_initial_record := false } :
      Record_Layer).m_initial_record = false := by
  refine ⟨next_record_ossification_check.1 Connection_Side.CLIENT none 22 4 4 0 0 [] (by decide),
    next_record_ossification_check.2.1 Connection_Side.CLIENT none 22 4 4 0 0 [], ?_⟩
  exact next_record_ossification_check.2.2
    ⟨[22, 4, 4, 0, 0], Connection_Side.CLIENT, false⟩ none
    ⟨Record_Type.HANDSHAKE, [], none⟩
    ⟨[], Connection_Side.CLIENT, false⟩ none rfl

/-- C7: a record decoded with a cipher state carries that state's
current decrypt counter as its sequence number and the returned cipher
state has the counter advanced by one; a record decoded without a
cipher state has no sequence number; hence three consecutive protected
decodes yield the strictly increasing, gap-free sequence numbers
k, k+1, k+2. -/
theorem next_record_sequence_numbers :
    (∀ (rl : Record_Layer) (c : Cipher_State) (r : Record) (rl2 : Record_Layer)
        (cs2 : Option Cipher_State),
      Record_Layer.next_record rl (some c) = .ok r rl2 cs2 →
        r.seq_no = some c.decrypt_seq ∧
        cs2 = some { c with decrypt_seq := c.decrypt_seq + 1 }) ∧
    (∀ (rl : Record_Layer) (r : Record) (rl2 : Record_Layer) (cs2 : Option Cipher_State),
      Record_Layer.next_record rl none = .ok r rl2 cs2 → r.seq_no = none) ∧
    (∀ (rl0 rl1 rl2 rl3 : Record_Layer) (c0 c1 c2 : Cipher_State)
        (cs3 : Option Cipher_State) (r1 r2 r3 : Record),
      Record_Layer.next_record rl0 (some c0) = .ok r1 rl1 (some c1) →
      Record_Layer.next_record rl1 (some c1) = .ok r2 rl2 (some c2) →
      Record_Layer.next_record rl2 (some c2) = .ok r3 rl3 cs3 →
        r1.seq_no = some c0.decrypt_seq ∧
        r2.seq_no = some (c0.decrypt_seq + 1) ∧
        r3.seq_no = some (c0.decrypt_seq + 2)) := by
  have hsome : ∀ (rl : Record_Layer) (c : Cipher_State) (r : Record) (rl2 : Record_Layer)
      (cs2 : Option Cipher_State),
      Record_Layer.next_record rl (some c) = .ok r rl2 cs2 →
        r.seq_no = some c.decrypt_seq ∧
        cs2 = some { c with decrypt_seq := c.decrypt_seq + 1 } := by
    intro rl c r rl2 cs2 h
    obtain ⟨-, -, ct, frag, hpf⟩ := next_record_ok_inv rl (some c) r rl2 cs2 h
    exact parse_fragment_ok_some ct frag c r cs2 hpf
  have hnone : ∀ (rl : Record_Layer) (r : Record) (rl2 : Record_Layer)
      (cs2 : Option Cipher_State),
      Record_Layer.next_record rl none = .ok r rl2 cs2 → r.seq_no = none := by
    intro rl r rl2 cs2 h
    obtain ⟨-, -, ct, frag, hpf⟩ := next_record_ok_inv rl none r rl2 cs2 h
    exact (parse_fragment_ok_none ct frag r cs2 hpf).1
  refine ⟨hsome, hnone, ?_⟩
  intro rl0 rl1 rl2 rl3 c0 c1 c2 cs3 r1 r2 r3 h1 h2 h3
  obtain ⟨hs1, hc1⟩ := hsome rl0 c0 r1 rl1 (some c1) h1
  obtain ⟨hs2, hc2⟩ := hsome rl1 c1 r2 rl2 (some c2) h2
  obtain ⟨hs3, _⟩ := hsome rl2 c2 r3 rl3 cs3 h3
  have hc1' : c1 = { c0 with decrypt_seq := c0.decrypt_seq + 1 } := by
    injection hc1.symm with h
    exact h.symm
  have hc2' : c2 = { c1 with decrypt_seq := c1.decrypt_seq + 1 } := by
    injection hc2.symm with h
    exact h.symm
  refine ⟨hs1, ?_, ?_⟩
  · rw [hs2, hc1']
  · rw [hs3, hc2', hc1']


/-- Witness for C7: three one-byte handshake records decoded with the
identity stub cipher carry sequence numbers 0, 1, 2. -/
theorem next_record_sequence_numbers_witness :
    (⟨Record_Type.HANDSHAKE, [], some 0⟩ : Record).seq_no = some (id_cipher 0).decrypt_seq ∧
    (⟨Record_Type.HANDSHAKE, [], some 1⟩ : Record).seq_no =
      some ((id_cipher 0).decrypt_seq + 1) ∧
    (⟨Record_Type.HANDSHAKE, [], some 2⟩ : Record).seq_no =
      some ((id_cipher 0).decrypt_seq + 2) := by
  have h1 : Record_Layer.next_record
      ⟨[23, 3, 3, 0, 1, 22, 23, 3, 3, 0, 1, 22, 23, 3, 3, 0, 1, 22],
        Connection_Side.CLIENT, false⟩ (some (id_cipher 0)) =
      .ok ⟨Record_Type.HANDSHAKE, [], some 0⟩
        ⟨[23, 3, 3, 0, 1, 22, 23, 3, 3, 0, 1, 22], Connection_Side.CLIENT, false⟩
        (some { id_cipher 0 with decrypt_seq := 1 }) := rfl
  have h2 : Record_Layer.next_record
      ⟨[23, 3, 3, 0, 1, 22, 23, 3, 3, 0, 1, 22], Connection_Side.CLIENT, false⟩
      (some { id_cipher 0 with decrypt_seq := 1 }) =
      .ok ⟨Record_Type.HANDSHAKE, [], some 1⟩
        ⟨[23, 3, 3, 0, 1, 22], Connection_Side.CLIENT, false⟩
        (some { id_cipher 0 with decrypt_seq := 2 }) := rfl
  have h3 : Record_Layer.next_record
      ⟨[23, 3, 3, 0, 1, 22], Connection_Side.CLIENT, false⟩
      (some { id_cipher 0 with decrypt_seq := 2 }) =
      .ok ⟨Record_Type.HANDSHAKE, [], some 2⟩
        ⟨[], Connection_Side.CLIENT, false⟩
        (some { id_cipher 0 with decrypt_seq := 3 }) := rfl
  exact next_record_sequence_numbers.2.2
    ⟨[23, 3, 3, 0, 1, 22, 23, 3, 3, 0, 1, 22, 23, 3, 3, 0, 1, 22],
      Connection_Side.CLIENT, false⟩
    ⟨[23, 3, 3, 0, 1, 22, 23, 3, 3, 0, 1, 22], Connection_Side.CLIENT, false⟩
    ⟨[23, 3, 3, 0, 1, 22], Connection_Side.CLIENT, false⟩
    ⟨[], Connection_Side.CLIENT, false⟩
    (id_cipher 0) { id_cipher 0 with decrypt_seq := 1 } { id_cipher 0 with decrypt_seq := 2 }
    (some { id_cipher 0 with decrypt_seq := 3 })
    ⟨Record_Type.HANDSHAKE, [], some 0⟩ ⟨Record_Type.HANDSHAKE, [], some 1⟩
    ⟨Record_Type.HANDSHAKE, [], some 2⟩ h1 h2 h3

lemma next_record_short (buf : List Nat) (s : Connection_Side) (b : Bool)
    (cs : Option Cipher_State) (h : buf.length < TLS_HEADER_SIZE) :
    Record_Layer.next_record ⟨buf, s, b⟩ cs = .bytesNeeded (TLS_HEADER_SIZE - buf.length) := by
  rcases buf with _ | ⟨a1, _ | ⟨a2, _ | ⟨a3, _ | ⟨a4, _ | ⟨a5, rest⟩⟩⟩⟩⟩
  · rfl
  · rfl
  · rfl
  · rfl
  · rfl
  · exfalso
    simp only [List.length_cons, TLS_HEADER_SIZE] at h
    omega

lemma next_record_cons (a1 a2 a3 a4 a5 : Nat) (pr : List Nat) (s : Connection_Side)
    (b : Bool) (cs : Option Cipher_State) :
    Record_Layer.next_record ⟨a1 :: a2 :: a3 :: a4 :: a5 :: pr, s, b⟩ cs =
      (if (b && !(a2 == LEGACY_VERSION_MAJOR && a3 == LEGACY_VERSION_MINOR)) = true then
        .decodeError .ossification
      else if (match cs with
               | some _ => MAX_CIPHERTEXT_SIZE
               | none => MAX_PLAINTEXT_SIZE) < 256 * a4 + a5 then
        .decodeError .recordOverflow
      else if pr.length < 256 * a4 + a5 then
        .bytesNeeded (256 * a4 + a5 - pr.length)
      else
        match parse_fragment a1 (pr.take (256 * a4 + a5)) cs with
        | .error e => .decodeError e
        | .ok (rec, cs3) => .ok rec ⟨pr.drop (256 * a4 + a5), s, false⟩ cs3) := rfl

lemma next_record_append (p t : List Nat) (s : Connection_Side) (b : Bool)
    (cs : Option Cipher_State) (r : Record) (rl2 : Record_Layer) (cs2 : Option Cipher_State)
    (hok : Record_Layer.next_record ⟨p ++ t, s, b⟩ cs = .ok r rl2 cs2) :
    (∃ n, Record_Layer.next_record ⟨p, s, b⟩ cs = .bytesNeeded n) ∨
    (∃ rl3, Record_Layer.next_record ⟨p, s, b⟩ cs = .ok r rl3 cs2) := by
  by_cases hp : p.length < TLS_HEADER_SIZE
  · exact Or.inl ⟨_, next_record_short p s b cs hp⟩
  · rcases p with _ | ⟨a1, _ | ⟨a2, _ | ⟨a3, _ | ⟨a4, _ | ⟨a5, pr⟩⟩⟩⟩⟩
    · exact absurd (by simp [TLS_HEADER_SIZE]) hp
    · exact absurd (by simp [TLS_HEADER_SIZE]) hp
    · exact absurd (by simp [TLS_HEADER_SIZE]) hp
    · exact absurd (by simp [TLS_HEADER_SIZE]) hp
    · exact absurd (by simp [TLS_HEADER_SIZE]) hp
    · rw [show ((a1 :: a2 :: a3 :: a4 :: a5 :: pr) ++ t) =
          a1 :: a2 :: a3 :: a4 :: a5 :: (pr ++ t) by simp] at hok
      rw [next_record_cons] at hok
      rw [next_record_cons]
      split at hok
      · exact absurd hok (by simp)
      · rename_i hossi
        rw [if_neg hossi]
        split at hok
        · exact absurd hok (by simp)
        · rename_i hmax
          rw [if_neg hmax]
          split at hok
          · exact absurd hok (by simp)
          · rename_i hlen2
            by_cases hlenp : pr.length < 256 * a4 + a5
            · rw [if_pos hlenp]
              exact Or.inl ⟨_, rfl⟩
            · rw [if_neg hlenp]
              push_neg at hlenp
              rw [List.take_append_of_le_length hlenp] at hok
              rcases hpf : parse_fragment a1 (pr.take (256 * a4 + a5)) cs
                  with e | ⟨rec2, cs3⟩ <;> rw [hpf] at hok
              · exact absurd hok (by simp)
              · have hok2 : NextResult.ok rec2
                    ⟨(pr ++ t).drop (256 * a4 + a5), s, false⟩ cs3 = .ok r rl2 cs2 := hok
                injection hok2 with h1 h2 h3
                refine Or.inr ⟨⟨pr.drop (256 * a4 + a5), s, false⟩, ?_⟩
                show NextResult.ok rec2 ⟨pr.drop (256 * a4 + a5), s, false⟩ cs3 =
                  .ok r ⟨pr.drop (256 * a4 + a5), s, false⟩ cs2
                rw [h1, h3]

lemma chunked_read_of_ok (w : List Nat) (s : Connection_Side) (b : Bool)
    (cs : Option Cipher_State) (r : Record) (rl2 : Record_Layer) (cs2 : Option Cipher_State)
    (hok : Record_Layer.next_record ⟨w, s, b⟩ cs = .ok r rl2 cs2) :
    ∀ (chunks : List (List Nat)) (p : List Nat), p ++ chunks.flatten = w →
      ∃ rl3, chunked_read cs ⟨p, s, b⟩ chunks = .ok r rl3 cs2 := by
  intro chunks
  induction chunks with
  | nil =>
    intro p hp
    simp only [List.flatten_nil, List.append_nil] at hp
    subst hp
    exact ⟨rl2, by simpa [chunked_read] using hok⟩
  | cons c crest ih =>
    intro p hp
    have hp2 : (p ++ c) ++ crest.flatten = w := by
      simpa [List.append_assoc] using hp
    have hok2 : Record_Layer.next_record ⟨(p ++ c) ++ crest.flatten, s, b⟩ cs = .ok r rl2 cs2 := by
      rw [hp2]
      exact hok
    rcases next_record_append (p ++ c) crest.flatten s b cs r rl2 cs2 hok2
        with ⟨n, hbn⟩ | ⟨rl3, hok3⟩
    · have hstep : chunked_read cs ⟨p, s, b⟩ (c :: crest) =
          chunked_read cs ⟨p ++ c, s, b⟩ crest := by
        simp only [chunked_read, Record_Layer.copy_data]
        rw [hbn]
      rw [hstep]
      exact ih (p ++ c) hp2
    · refine ⟨rl3, ?_⟩
      simp only [chunked_read, Record_Layer.copy_data]
      rw [hok3]

/-- C1: incremental parsing equivalence.  If feeding a whole byte
sequence through one `copy_data` call and decoding with one
`next_record` call yields a record, then feeding the same bytes in any
chunking (down to one byte each) and calling `next_record` after each
chunk, treating `bytesNeeded` as a request for more bytes, yields
exactly the same record (same type, fragment and sequence number) and
the same updated cipher state. -/
theorem incremental_parsing_equivalence (s : Connection_Side) (b : Bool)
    (cs : Option Cipher_State) (chunks : List (List Nat)) (w : List Nat)
    (r : Record) (rl2 : Record_Layer) (cs2 : Option Cipher_State)
    (hjoin : chunks.flatten = w)
    (hok : Record_Layer.next_record (Record_Layer.copy_data ⟨[], s, b⟩ w) cs =
      .ok r rl2 cs2) :
    ∃ rl3, chunked_read cs ⟨[], s, b⟩ chunks = .ok r rl3 cs2 := by
  have hok2 : Record_Layer.next_record ⟨w, s, b⟩ cs = .ok r rl2 cs2 := by
    simpa [Record_Layer.copy_data] using hok
  exact chunked_read_of_ok w s b cs r rl2 cs2 hok2 chunks [] (by simpa using hjoin)

/-- Witness for C1: a plaintext handshake record fed one byte at a time
decodes to the same record as fed whole. -/
theorem incremental_parsing_equivalence_witness :
    ∃ rl3, chunked_read none ⟨[], Connection_Side.CLIENT, true⟩
        [[22], [3], [3], [0], [2], [7], [9]] =
      .ok ⟨Record_Type.HANDSHAKE, [7, 9], none⟩ rl3 none :=
  incremental_parsing_equivalence Connection_Side.CLIENT true none
    [[22], [3], [3], [0], [2], [7], [9]] [22, 3, 3, 0, 2, 7, 9]
    ⟨Record_Type.HANDSHAKE, [7, 9], none⟩ ⟨[], Connection_Side.CLIENT, false⟩ none
    (by rfl) (by rfl)

lemma split_fragments_flatten (data : List Nat) : (split_fragments data).flatten = data := by
  induction data using split_fragments.induct with
  | case1 data h =>
    rw [split_fragments]
    simp [h]
  | case2 data h ih =>
    rw [split_fragments]
    simp [h, List.flatten_cons, ih]

lemma split_fragments_bound (data : List Nat) :
    ∀ f ∈ split_fragments data, f.length ≤ MAX_PLAINTEXT_SIZE := by
  induction data using split_fragments.induct with
  | case1 data h =>
    rw [split_fragments]
    simp only [dif_pos h]
    simpa using h
  | case2 data h ih =>
    rw [split_fragments]
    simp only [dif_neg h]
    intro f hf
    rcases List.mem_cons.mp hf with rfl | hmem
    · simp [List.length_take]
    · exact ih f hmem

lemma split_fragments_ne_nil (data : List Nat) : split_fragments data ≠ [] := by
  rw [split_fragments]
  split
  · exact List.cons_ne_nil _ _
  · exact List.cons_ne_nil _ _

lemma toByte_ne_zero (t : Record_Type) : t.toByte ≠ 0 := by
  cases t <;> simp [Record_Type.toByte]

lemma fromByte_toByte (t : Record_Type) : Record_Type.fromByte t.toByte = some t := by
  cases t <;> rfl

lemma strip_padding_append (f : List Nat) (c : Nat) (hc : c ≠ 0) :
    strip_padding (f ++ [c]) = some (c, f) := by
  unfold strip_padding
  rw [List.reverse_append]
  simp [List.dropWhile_cons, hc]

lemma decrypt_record_of_encode (type : Record_Type) (f : List Nat) (csE csD : Cipher_State)
    (hf : f.length ≤ MAX_PLAINTEXT_SIZE)
    (hmatch : csD.decrypt_fn csE.encrypt_seq
      (csE.encrypt_fn csE.encrypt_seq (f ++ [type.toByte])) = some (f ++ [type.toByte]))
    (hseq : csD.decrypt_seq = csE.encrypt_seq) :
    decrypt_record (csE.encrypt_fn csE.encrypt_seq (f ++ [type.toByte]))
        csD.decrypt_seq csD = .ok type f := by
  unfold decrypt_record
  simp only [hseq, hmatch, strip_padding_append f type.toByte (toByte_ne_zero type),
    fromByte_toByte, if_neg (not_lt.mpr hf)]

lemma next_record_of_encode (type : Record_Type) (f : List Nat) (csE csD : Cipher_State)
    (tail : List Nat) (s : Connection_Side) (b : Bool)
    (hf : f.length ≤ MAX_PLAINTEXT_SIZE)
    (hmatch : csD.decrypt_fn csE.encrypt_seq
      (csE.encrypt_fn csE.encrypt_seq (f ++ [type.toByte])) = some (f ++ [type.toByte]))
    (hexp : (csE.encrypt_fn csE.encrypt_seq (f ++ [type.toByte])).length ≤ MAX_CIPHERTEXT_SIZE)
    (hseq : csD.decrypt_seq = csE.encrypt_seq) :
    Record_Layer.next_record ⟨(encode_fragment type f (some csE)).1 ++ tail, s, b⟩ (some csD) =
      .ok ⟨type, f, some csD.decrypt_seq⟩ ⟨tail, s, false⟩
        (some { csD with decrypt_seq := csD.decrypt_seq + 1 }) := by
  set ct := csE.encrypt_fn csE.encrypt_seq (f ++ [type.toByte]) with hct
  have hwire : (encode_fragment type f (some csE)).1 ++ tail =
      23 :: 3 :: 3 :: (ct.length / 256) :: (ct.length % 256) :: (ct ++ tail) := by
    simp [encode_fragment, serialize_header, LEGACY_VERSION_MAJOR, LEGACY_VERSION_MINOR,
      Record_Type.toByte, hct]
  rw [hwire, next_record_cons]
  rw [Nat.div_add_mod ct.length 256]
  have h1 : ¬((b && !((3:Nat) == LEGACY_VERSION_MAJOR && (3:Nat) == LEGACY_VERSION_MINOR)) =
      true) := by
    simp [LEGACY_VERSION_MAJOR, LEGACY_VERSION_MINOR]
  rw [if_neg h1]
  have h2 : ¬((match (some csD : Option Cipher_State) with
      | some _ => MAX_CIPHERTEXT_SIZE
      | none => MAX_PLAINTEXT_SIZE) < ct.length) := by
    simpa using not_lt.mpr hexp
  rw [if_neg h2]
  have h3 : ¬((ct ++ tail).length < ct.length) := by
    simp [List.length_append]
  rw [if_neg h3]
  rw [List.take_append_of_le_length (le_refl ct.length),
    List.drop_append_of_le_length (le_refl ct.length)]
  rw [List.take_length, List.drop_length, List.nil_append]
  have hdec : decrypt_record ct csD.decrypt_seq csD = .ok type f :=
    decrypt_record_of_encode type f csE csD hf hmatch hseq
  have hpf : parse_fragment 23 ct (some csD) =
      .ok (⟨type, f, some csD.decrypt_seq⟩,
        some { csD with decrypt_seq := csD.decrypt_seq + 1 }) := by
    simp only [parse_fragment]
    rw [hdec]
  rw [hpf]

lemma drain_encode_fragments (type : Record_Type) (frags : List (List Nat)) :
    ∀ (csE csD : Cipher_State) (s : Connection_Side) (b : Bool),
      (∀ f ∈ frags, f.length ≤ MAX_PLAINTEXT_SIZE) →
      (∀ n x, csD.decrypt_fn n (csE.encrypt_fn n x) = some x) →
      (∀ n x, x.length ≤ MAX_PLAINTEXT_SIZE + 1 →
        (csE.encrypt_fn n x).length ≤ MAX_CIPHERTEXT_SIZE) →
      csD.decrypt_seq = csE.encrypt_seq →
      ∃ recs, drain (some csD) frags.length
          ⟨(encode_fragments type frags (some csE)).1, s, b⟩ = some recs ∧
        recs.map Record.type = frags.map (fun _ => type) ∧
        recs.map Record.fragment = frags := by
  induction frags with
  | nil =>
    intro csE csD s b hfr hmatch hexp hseq
    exact ⟨[], rfl, rfl, rfl⟩
  | cons f fs ih =>
    intro csE csD s b hfr hmatch hexp hseq
    have hf : f.length ≤ MAX_PLAINTEXT_SIZE := hfr f (List.mem_cons_self f fs)
    have hinner : (f ++ [type.toByte]).length ≤ MAX_PLAINTEXT_SIZE + 1 := by
      simp only [List.length_append, List.length_cons, List.length_nil]
      omega
    have henc : (encode_fragments type (f :: fs) (some csE)).1 =
        (encode_fragment type f (some csE)).1 ++
          (encode_fragments type fs (some { csE with encrypt_seq := csE.encrypt_seq + 1 })).1 :=
      rfl
    have hne : (encode_fragment type f (some csE)).1 ++
        (encode_fragments type fs (some { csE with encrypt_seq := csE.encrypt_seq + 1 })).1 ≠
          [] := by
      simp [encode_fragment, serialize_header]
    have hstep := next_record_of_encode type f csE csD
      (encode_fragments type fs (some { csE with encrypt_seq := csE.encrypt_seq + 1 })).1 s b
      hf (hmatch csE.encrypt_seq (f ++ [type.toByte])) (hexp csE.encrypt_seq _ hinner) hseq
    obtain ⟨recs, hd, hty, hfrg⟩ := ih { csE with encrypt_seq := csE.encrypt_seq + 1 }
      { csD with decrypt_seq := csD.decrypt_seq + 1 } s false
      (fun g hg => hfr g (List.mem_cons_of_mem f hg))
      (fun n x => hmatch n x) (fun n x hx => hexp n x hx)
      (by simp [hseq])
    refine ⟨⟨type, f, some csD.decrypt_seq⟩ :: recs, ?_, by simp [hty], by simp [hfrg]⟩
    show drain (some csD) (fs.length + 1)
      ⟨(encode_fragments type (f :: fs) (some csE)).1, s, b⟩ = _
    rw [henc]
    simp only [drain]
    rw [if_neg hne]
    simp only [hstep]
    rw [hd]
    rfl

/-- C2: round-trip.  Encoding any data under a cipher state whose
decrypt direction matches its encrypt direction (decryption inverts
encryption, the AEAD expansion respects the ciphertext bound, and the
two counters agree) and feeding the wire bytes back through
`copy_data`/`next_record` yields a non-empty sequence of records, all of
the original content type, whose fragments concatenate to the original
data in order. -/
theorem round_trip_prepare_records (type : Record_Type) (data : List Nat)
    (s : Connection_Side) (b : Bool) (cs : Cipher_State)
    (hmatch : ∀ n x, cs.decrypt_fn n (cs.encrypt_fn n x) = some x)
    (hexp : ∀ n x, x.length ≤ MAX_PLAINTEXT_SIZE + 1 →
      (cs.encrypt_fn n x).length ≤ MAX_CIPHERTEXT_SIZE)
    (hseq : cs.decrypt_seq = cs.encrypt_seq) :
    ∃ recs : List Record,
      drain (some cs) (split_fragments data).length
          (Record_Layer.copy_data ⟨[], s, b⟩ (prepare_records type data (some cs)).1) =
        some recs ∧
      recs ≠ [] ∧
      (∀ rec ∈ recs, rec.type = type) ∧
      (recs.map Record.fragment).flatten = data := by
  have hcopy : Record_Layer.copy_data ⟨[], s, b⟩ (prepare_records type data (some cs)).1 =
      ⟨(encode_fragments type (split_fragments data) (some cs)).1, s, b⟩ := by
    simp [Record_Layer.copy_data, prepare_records]
  rw [hcopy]
  obtain ⟨recs, hd, hty, hfrg⟩ := drain_encode_fragments type (split_fragments data)
    cs cs s b (split_fragments_bound data) hmatch hexp hseq
  refine ⟨recs, hd, ?_, ?_, ?_⟩
  · intro hnil
    have : split_fragments data = [] := by
      rw [← hfrg, hnil, List.map_nil]
    exact split_fragments_ne_nil data this
  · intro rec hrec
    have hmem : rec.type ∈ recs.map Record.type := List.mem_map_of_mem Record.type hrec
    rw [hty] at hmem
    obtain ⟨a, _, ha⟩ := List.mem_map.mp hmem
    exact ha.symm
  · rw [hfrg, split_fragments_flatten]

/-- Witness for C2: three bytes of alert data round-trip through the
identity stub cipher. -/
theorem round_trip_prepare_records_witness :
    ∃ recs : List Record,
      drain (some (id_cipher 0)) (split_fragments [5, 6, 7]).length
          (Record_Layer.copy_data ⟨[], Connection_Side.SERVER, true⟩
            (prepare_records Record_Type.ALERT [5, 6, 7] (some (id_cipher 0))).1) =
        some recs ∧
      recs ≠ [] ∧
      (∀ rec ∈ recs, rec.type = Record_Type.ALERT) ∧
      (recs.map Record.fragment).flatten = [5, 6, 7] :=
  round_trip_prepare_records Record_Type.ALERT [5, 6, 7] Connection_Side.SERVER true
    (id_cipher 0) (fun _ _ => rfl) (fun n x hx => le_trans hx (by decide)) rfl

end Botan.TLS
